import Mathlib

/-!
Verification of the walkdir traversal engine (directory content loader,
per-directory state machine, traversal driver stack discipline, and the
option builder) against its natural-language specification.

The embedding is parametric in the payload types:
`α` raw-entry payload, `ε` error payload, `ρ` backend item payload,
`π` path payload, `η` ancestor-handle payload, `ι` io-error payload.
-/

deriving instance DecidableEq for Except

namespace Walkdir

/-- Content filter variants (src/wd.rs, enum ContentFilter). -/
inductive ContentFilter where
  | none
  | filesOnly
  | dirsOnly
  | skipAll
deriving DecidableEq, Repr

/-- Content order variants (src/wd.rs, enum ContentOrder). -/
inductive ContentOrder where
  | none
  | filesFirst
  | dirsFirst
deriving DecidableEq, Repr

/-- Immutable walk options (src/opts.rs, struct WalkDirOptionsImmut).
usize values are modelled as Nat; the setters below only compare and
assign them, so no wrap-around arithmetic is involved. -/
structure WalkDirOptionsImmut where
  same_file_system : Bool
  follow_links : Bool
  yield_loop_links : Bool
  max_open : Nat
  min_depth : Nat
  max_depth : Nat
  contents_first : Bool
  content_filter : ContentFilter
  content_order : ContentOrder
deriving DecidableEq, Repr

/-- usize::MAX on a 64-bit host. -/
def usizeMax : Nat := 2 ^ 64 - 1

/-- Default options (src/opts.rs, impl Default for WalkDirOptions). -/
def WalkDirOptionsImmut.default : WalkDirOptionsImmut where
  same_file_system := false
  follow_links := false
  yield_loop_links := false
  max_open := 10
  min_depth := 0
  max_depth := usizeMax
  contents_first := false
  content_filter := ContentFilter.none
  content_order := ContentOrder.none

/-- A classified entry (src/dir.rs, struct FlatDirEntry): the raw entry plus
the is-directory decision and the optional loop-ancestor index. -/
structure FlatDirEntry (α : Type) where
  raw : α
  is_dir : Bool
  loop_link : Option Nat
deriving DecidableEq, Repr

/-- One buffered record of a directory content loader
(src/dir.rs, struct DirEntryRecord). -/
structure DirEntryRecord (α ε : Type) where
  flat : Except ε (FlatDirEntry α)
  first_pass : Bool
  hidden : Bool
deriving DecidableEq, Repr

/-- src/dir.rs, DirEntryRecord::new.  `classify` models the injected
`process_rawdent` closure: `none` means the raw entry is dropped. -/
def DirEntryRecord.new (opts : WalkDirOptionsImmut)
    (classify : ρ → Option (Except ε (FlatDirEntry α)))
    (r : Except ε ρ) : Option (DirEntryRecord α ε) :=
  let rFlat : Option (Except ε (FlatDirEntry α)) :=
    match r with
    | Except.ok raw => classify raw
    | Except.error e => some (Except.error e)
  match rFlat with
  | Option.none => none
  | some (Except.ok flat) =>
      some { flat := Except.ok flat
             first_pass :=
               match opts.content_order with
               | ContentOrder.none => false
               | ContentOrder.dirsFirst => flat.is_dir
               | ContentOrder.filesFirst => !flat.is_dir
             hidden :=
               match opts.content_filter with
               | ContentFilter.none => false
               | ContentFilter.dirsOnly => !flat.is_dir
               | ContentFilter.filesOnly => flat.is_dir
               | ContentFilter.skipAll => true }
  | some (Except.error e) =>
      some { flat := Except.error e, first_pass := false, hidden := false }

/-- src/dir.rs, DirEntryRecord::can_be_yielded. -/
def DirEntryRecord.can_be_yielded (rec : DirEntryRecord α ε) : Bool :=
  if !rec.hidden then
    true
  else
    match rec.flat with
    | Except.ok flat => flat.is_dir
    | Except.error _ => false

/-- The source of not-yet-consumed entries of one directory
(src/walk/rawdent.rs, enum ReadDir; the open stream is modelled as the
list of items the backend will still deliver, each already a result). -/
inductive ReadDir (ρ ε : Type) where
  | once : Option ρ → ReadDir ρ ε
  | opened : List (Except ε ρ) → ReadDir ρ ε
  | closed : ReadDir ρ ε
  | error : Option ε → ReadDir ρ ε
deriving DecidableEq, Repr

/-- src/walk.rs, ReadDir::new: a successful directory open becomes an open
stream, a failed one the captured-error state. -/
def ReadDir.new (r : Except ε (List (Except ε ρ))) : ReadDir ρ ε :=
  match r with
  | Except.ok l => ReadDir.opened l
  | Except.error e => ReadDir.error (some e)

/-- src/walk/rawdent.rs, ReadDir::next: pulls one item, returning the item
(if any) and the successor loader state. -/
def ReadDir.next : ReadDir ρ ε → Option (Except ε ρ) × ReadDir ρ ε
  | ReadDir.once (some x) => (some (Except.ok x), ReadDir.once none)
  | ReadDir.once Option.none => (none, ReadDir.once none)
  | ReadDir.opened [] => (none, ReadDir.opened [])
  | ReadDir.opened (r :: rest) => (some r, ReadDir.opened rest)
  | ReadDir.closed => (none, ReadDir.closed)
  | ReadDir.error (some e) => (some (Except.error e), ReadDir.error none)
  | ReadDir.error Option.none => (none, ReadDir.error none)

/-- src/walk/rawdent.rs, ReadDir::collect_all: drains everything remaining
through `process`, returning the collected items and the successor state. -/
def ReadDir.collect_all (process : Except ε ρ → Option τ) :
    ReadDir ρ ε → List τ × ReadDir ρ ε
  | ReadDir.opened l => (l.filterMap process, ReadDir.closed)
  | ReadDir.once (some x) =>
      ((process (Except.ok x)).toList, ReadDir.closed)
  | ReadDir.once Option.none => ([], ReadDir.closed)
  | ReadDir.closed => ([], ReadDir.closed)
  | ReadDir.error (some e) =>
      ((process (Except.error e)).toList, ReadDir.error none)
  | ReadDir.error Option.none => ([], ReadDir.error none)

/-- Remaining backend pulls a loader can still answer. -/
def ReadDir.measure : ReadDir ρ ε → Nat
  | ReadDir.once (some _) => 1
  | ReadDir.once Option.none => 0
  | ReadDir.opened l => l.length
  | ReadDir.closed => 0
  | ReadDir.error (some _) => 1
  | ReadDir.error Option.none => 0

theorem ReadDir.measure_next_some {rd rd' : ReadDir ρ ε} {r : Except ε ρ}
    (h : rd.next = (some r, rd')) : rd'.measure < rd.measure := by
  cases rd with
  | once o =>
    cases o with
    | some x =>
      simp only [ReadDir.next, Prod.mk.injEq] at h
      obtain ⟨-, h2⟩ := h
      subst h2
      simp [ReadDir.measure]
    | none => simp [ReadDir.next] at h
  | opened l =>
    cases l with
    | nil => simp [ReadDir.next] at h
    | cons a rest =>
      simp only [ReadDir.next, Prod.mk.injEq] at h
      obtain ⟨-, h2⟩ := h
      subst h2
      simp [ReadDir.measure]
  | closed => simp [ReadDir.next] at h
  | error o =>
    cases o with
    | some e =>
      simp only [ReadDir.next, Prod.mk.injEq] at h
      obtain ⟨-, h2⟩ := h
      subst h2
      simp [ReadDir.measure]
    | none => simp [ReadDir.next] at h

/-- Directory content loader (src/dir.rs, struct DirContent): the unread
backend source, the buffer of already-materialized records, and the cursor. -/
structure DirContent (α ε ρ : Type) where
  rd : ReadDir ρ ε
  content : List (DirEntryRecord α ε)
  current_pos : Option Nat
deriving DecidableEq, Repr

/-- The buffer index the next pull will look at
(src/dir.rs, get_next_rec: `if let Some(pos) ... pos + 1 ... else 0`). -/
def DirContent.nextPos (dc : DirContent α ε ρ) : Nat :=
  match dc.current_pos with
  | some p => p + 1
  | none => 0

/-- src/dir.rs, DirContent::get_next_rec: advance the cursor by one,
serving from the buffer when possible and otherwise pulling (and
classifying) one backend item; dropped items make the loop continue.
Returns the `(first_pass, can_be_yielded)` flags and the new loader. -/
def DirContent.get_next_rec (opts : WalkDirOptionsImmut)
    (classify : ρ → Option (Except ε (FlatDirEntry α)))
    (dc : DirContent α ε ρ) : Option (Bool × Bool) × DirContent α ε ρ :=
  match dc.content[dc.nextPos]? with
  | some re =>
      (some (re.first_pass, re.can_be_yielded),
       { dc with current_pos := some dc.nextPos })
  | Option.none =>
    match h : dc.rd.next with
    | (some r, rd') =>
      match DirEntryRecord.new opts classify r with
      | some re =>
          let newContent := dc.content ++ [re]
          (some (re.first_pass, re.can_be_yielded),
           { rd := rd', content := newContent,
             current_pos := some (newContent.length - 1) })
      | Option.none =>
          DirContent.get_next_rec opts classify { dc with rd := rd' }
    | (none, rd') => (none, { dc with rd := rd' })
termination_by dc.rd.measure
decreasing_by
  exact ReadDir.measure_next_some h

/-- src/dir.rs, DirContent::rewind. -/
def DirContent.rewind (dc : DirContent α ε ρ) : DirContent α ε ρ :=
  { dc with current_pos := none }

/-- src/dir.rs, DirContent::load_all: drain the backend into the buffer
without moving the cursor. -/
def DirContent.load_all (opts : WalkDirOptionsImmut)
    (classify : ρ → Option (Except ε (FlatDirEntry α)))
    (dc : DirContent α ε ρ) : DirContent α ε ρ :=
  let pr := ReadDir.collect_all (DirEntryRecord.new opts classify) dc.rd
  { dc with
    rd := pr.2
    content := if dc.content.isEmpty then pr.1 else dc.content ++ pr.1 }

/-- The record comparator of src/dir.rs, DirContent::sort_content_and_rewind:
successes compare by the caller comparator on the raw entries, two failures
compare equal, a success is Greater than a failure and a failure Less than
a success. -/
def recCompare (cmp : α → α → Ordering) (a b : DirEntryRecord α ε) :
    Ordering :=
  match a.flat, b.flat with
  | Except.ok x, Except.ok y => cmp x.raw y.raw
  | Except.error _, Except.error _ => Ordering.eq
  | Except.ok _, Except.error _ => Ordering.gt
  | Except.error _, Except.ok _ => Ordering.lt

/-- The boolean "may come first" relation induced by `recCompare`: Rust's
stable `sort_by` keeps `a` before `b` exactly when the comparator does not
answer Greater. -/
def recLE (cmp : α → α → Ordering) (a b : DirEntryRecord α ε) : Bool :=
  match recCompare cmp a b with
  | Ordering.gt => false
  | _ => true

/-- src/dir.rs, DirContent::sort_content_and_rewind: stable sort of the
buffer (Vec::sort_by is a stable sort) and cursor reset. -/
def DirContent.sort_content_and_rewind (cmp : α → α → Ordering)
    (dc : DirContent α ε ρ) : DirContent α ε ρ :=
  { dc with content := dc.content.mergeSort (recLE cmp), current_pos := none }

/-- src/dir.rs, DirContent::load_all_and_sort. -/
def DirContent.load_all_and_sort (opts : WalkDirOptionsImmut)
    (cmp : α → α → Ordering)
    (classify : ρ → Option (Except ε (FlatDirEntry α)))
    (dc : DirContent α ε ρ) : DirContent α ε ρ :=
  (dc.load_all opts classify).sort_content_and_rewind cmp

/-- src/dir.rs, enum DirPass. -/
inductive DirPass where
  | entire
  | first
  | second
deriving DecidableEq, Repr

/-- src/dir.rs, fn get_initial_pass. -/
def getInitialPass (opts : WalkDirOptionsImmut) : DirPass :=
  if opts.content_order = ContentOrder.none then DirPass.entire
  else DirPass.first

/-- src/wd.rs, enum Position. -/
inductive Position (β γ δ : Type) where
  | beforeContent : β → Position β γ δ
  | entry : γ → Position β γ δ
  | error : δ → Position β γ δ
  | afterContent : Position β γ δ
deriving DecidableEq, Repr

/-- Per-directory state (src/dir.rs, struct DirState). -/
structure DirState (α ε ρ : Type) where
  depth : Nat
  content : DirContent α ε ρ
  pass : DirPass
  position : Position Unit Unit Unit
deriving DecidableEq, Repr

/-- src/dir.rs, DirState::load_all. -/
def DirState.load_all (opts : WalkDirOptionsImmut)
    (classify : ρ → Option (Except ε (FlatDirEntry α)))
    (s : DirState α ε ρ) : DirState α ε ρ :=
  { s with content := s.content.load_all opts classify }

/-- src/dir.rs, DirState::skip_all. -/
def DirState.skip_all (s : DirState α ε ρ) : DirState α ε ρ :=
  { s with position := Position.afterContent }

/-- Combined loader measure: unread backend pulls plus buffered records the
cursor has not yet passed. -/
def DirContent.measure (dc : DirContent α ε ρ) : Nat :=
  dc.rd.measure + (dc.content.length - dc.nextPos)

/-- Ranking of passes used for termination: the First pass can still fall
over into Second, the other passes cannot change. -/
def passRank : DirPass → Nat
  | DirPass.first => 1
  | _ => 0

theorem DirContent.measure_set_pos (dc : DirContent α ε ρ) (p : Nat) :
    DirContent.measure { dc with current_pos := some p } =
      dc.rd.measure + (dc.content.length - (p + 1)) := rfl

theorem DirContent.measure_set_rd (dc : DirContent α ε ρ) (rd' : ReadDir ρ ε) :
    DirContent.measure { dc with rd := rd' } =
      rd'.measure + (dc.content.length - dc.nextPos) := rfl

theorem DirContent.get_next_rec_buffer (opts : WalkDirOptionsImmut)
    (classify : ρ → Option (Except ε (FlatDirEntry α)))
    (dc : DirContent α ε ρ) (re : DirEntryRecord α ε)
    (hget : dc.content[dc.nextPos]? = some re) :
    dc.get_next_rec opts classify =
      (some (re.first_pass, re.can_be_yielded),
       { dc with current_pos := some dc.nextPos }) := by
  rw [DirContent.get_next_rec]
  simp only [hget]

theorem DirContent.get_next_rec_pull (opts : WalkDirOptionsImmut)
    (classify : ρ → Option (Except ε (FlatDirEntry α)))
    (dc : DirContent α ε ρ) (r : Except ε ρ) (rd' : ReadDir ρ ε)
    (hget : dc.content[dc.nextPos]? = none)
    (hnext : dc.rd.next = (some r, rd')) :
    dc.get_next_rec opts classify =
      (match DirEntryRecord.new opts classify r with
       | some re =>
           (some (re.first_pass, re.can_be_yielded),
            { rd := rd', content := dc.content ++ [re],
              current_pos := some ((dc.content ++ [re]).length - 1) })
       | Option.none =>
           DirContent.get_next_rec opts classify { dc with rd := rd' }) := by
  rw [DirContent.get_next_rec]
  simp only [hget]
  split
  · rename_i r1 rd1 heq
    rw [hnext] at heq
    obtain ⟨h1, h2⟩ := Prod.mk.injEq .. ▸ heq
    obtain rfl := Option.some.injEq .. ▸ h1
    subst h2
    rfl
  · rename_i rd1 heq
    rw [hnext] at heq
    simp at heq

theorem DirContent.get_next_rec_exhausted (opts : WalkDirOptionsImmut)
    (classify : ρ → Option (Except ε (FlatDirEntry α)))
    (dc : DirContent α ε ρ) (rd' : ReadDir ρ ε)
    (hget : dc.content[dc.nextPos]? = none)
    (hnext : dc.rd.next = (none, rd')) :
    dc.get_next_rec opts classify = (none, { dc with rd := rd' }) := by
  rw [DirContent.get_next_rec]
  simp only [hget]
  split
  · rename_i r1 rd1 heq
    rw [hnext] at heq
    simp at heq
  · rename_i rd1 heq
    rw [hnext] at heq
    obtain ⟨-, h2⟩ := Prod.mk.injEq .. ▸ heq
    subst h2
    rfl

theorem DirContent.get_next_rec_some_measure (opts : WalkDirOptionsImmut)
    (classify : ρ → Option (Except ε (FlatDirEntry α)))
    (dc : DirContent α ε ρ) :
    ∀ fl dc', dc.get_next_rec opts classify = (some fl, dc') →
      dc'.measure < dc.measure := by
  induction dc using DirContent.get_next_rec.induct opts classify with
  | case1 dc re hget =>
    intro fl dc' h
    rw [DirContent.get_next_rec_buffer opts classify dc re hget] at h
    obtain ⟨-, h2⟩ := Prod.mk.injEq .. ▸ h
    subst h2
    have hlt : dc.nextPos < dc.content.length :=
      (List.getElem?_eq_some.mp hget).1
    rw [DirContent.measure_set_pos]
    simp only [DirContent.measure]
    omega
  | case2 dc hget r rd' hnext re hnew =>
    intro fl dc' h
    rw [DirContent.get_next_rec_pull opts classify dc r rd' hget hnext] at h
    simp only [hnew] at h
    obtain ⟨-, h2⟩ := Prod.mk.injEq .. ▸ h
    subst h2
    have hm := ReadDir.measure_next_some hnext
    simp only [DirContent.measure, DirContent.nextPos, List.length_append,
      List.length_cons, List.length_nil]
    omega
  | case3 dc hget r rd' hnext hnew ih =>
    intro fl dc' h
    rw [DirContent.get_next_rec_pull opts classify dc r rd' hget hnext] at h
    simp only [hnew] at h
    have hm := ReadDir.measure_next_some hnext
    refine lt_of_lt_of_le (ih fl dc' h) ?_
    rw [DirContent.measure_set_rd]
    simp only [DirContent.measure]
    omega
  | case4 dc hget rd' hnext =>
    intro fl dc' h
    rw [DirContent.get_next_rec_exhausted opts classify dc rd' hget hnext] at h
    simp at h

/-- src/dir.rs, DirState::shift_next: advance to the next acceptable record
according to the current pass and the can-be-yielded flag; on exhaustion of
the First pass fall over to Second after a rewind; on exhaustion of Second
or Entire, set the position to AfterContent. -/
def DirState.shift_next (opts : WalkDirOptionsImmut)
    (classify : ρ → Option (Except ε (FlatDirEntry α)))
    (s : DirState α ε ρ) : Bool × DirState α ε ρ :=
  match h : s.content.get_next_rec opts classify with
  | (some fl, dc') =>
      let validPass :=
        match s.pass with
        | DirPass.entire => true
        | DirPass.first => fl.1
        | DirPass.second => !fl.1
      if validPass && fl.2 then (true, { s with content := dc' })
      else DirState.shift_next opts classify { s with content := dc' }
  | (none, dc') =>
      match hp : s.pass with
      | DirPass.entire =>
          (false, { s with content := dc', position := Position.afterContent })
      | DirPass.second =>
          (false, { s with content := dc', position := Position.afterContent })
      | DirPass.first =>
          DirState.shift_next opts classify
            { s with pass := DirPass.second, content := dc'.rewind }
termination_by (passRank s.pass, s.content.measure)
decreasing_by
  · exact Prod.Lex.right _
      (DirContent.get_next_rec_some_measure opts classify s.content _ _ h)
  · exact Prod.Lex.left _ _ (by rw [hp]; decide)

/-- src/dir.rs, DirState::next_position: no-op at AfterContent, otherwise
shift and set the position to Entry or AfterContent. -/
def DirState.next_position (opts : WalkDirOptionsImmut)
    (classify : ρ → Option (Except ε (FlatDirEntry α)))
    (s : DirState α ε ρ) : DirState α ε ρ :=
  if s.position = Position.afterContent then s
  else
    let pr := s.shift_next opts classify
    if pr.1 then { pr.2 with position := Position.entry () }
    else { pr.2 with position := Position.afterContent }

/-- An ancestor on the open path (src/walk.rs, struct Ancestor): the
directory path plus the platform same-file handle extension. -/
structure Ancestor (π η : Type) where
  path : π
  ext : η
deriving DecidableEq, Repr

/-- The traversal driver state (src/walk.rs, struct IntoIter), restricted to
the fields the push/pop stack discipline reads and writes. -/
structure IntoIterState (α ε ρ π η : Type) where
  opts : WalkDirOptionsImmut
  states : List (DirState α ε ρ)
  ancestors : List (Ancestor π η)
  oldest_opened : Nat
deriving DecidableEq, Repr

/-- src/walk.rs, IntoIter::push (lines 985-1026).  `newState` is the
Per-Directory State built for the child (directory-open failure is captured
inside it, never aborting the push) and `rAnc` the outcome of
`Ancestor::new`, whose failure aborts the push after the fd-reclaim step.
The Rust `checked_sub` panic cannot fire while `oldest_opened <=
states.len()`, which every theorem below assumes; Nat subtraction agrees
with it on that domain. -/
def IntoIterState.push (classify : ρ → Option (Except ε (FlatDirEntry α)))
    (newState : DirState α ε ρ) (rAnc : Except ι (Ancestor π η))
    (it : IntoIterState α ε ρ π η) :
    Except ι Unit × IntoIterState α ε ρ π η :=
  let free := it.states.length - it.oldest_opened
  let states1 :=
    if free = it.opts.max_open then
      it.states.modify (fun s => s.load_all it.opts classify) it.oldest_opened
    else it.states
  if it.opts.follow_links then
    match rAnc with
    | Except.error e => (Except.error e, { it with states := states1 })
    | Except.ok anc =>
        (Except.ok (),
         { it with
           states := states1 ++ [newState]
           ancestors := it.ancestors ++ [anc]
           oldest_opened :=
             if free = it.opts.max_open then it.oldest_opened + 1
             else it.oldest_opened })
  else
    (Except.ok (),
     { it with
       states := states1 ++ [newState]
       oldest_opened :=
         if free = it.opts.max_open then it.oldest_opened + 1
         else it.oldest_opened })

/-- src/walk.rs, IntoIter::pop (lines 1189-1198).  `none` models the
`expect` panics on an empty stack. -/
def IntoIterState.pop (it : IntoIterState α ε ρ π η) :
    Option (IntoIterState α ε ρ π η) :=
  match it.states.getLast? with
  | Option.none => none
  | some _ =>
    let states' := it.states.dropLast
    if it.opts.follow_links then
      match it.ancestors.getLast? with
      | Option.none => none
      | some _ =>
          some { it with
                 states := states'
                 ancestors := it.ancestors.dropLast
                 oldest_opened := min it.oldest_opened states'.length }
    else
      some { it with
             states := states'
             oldest_opened := min it.oldest_opened states'.length }

/-- Errors check_loop can report (src/error.rs / src/walk.rs): an io error
while obtaining or comparing handles, or a detected loop carrying the
matching ancestor path and the offending child path. -/
inductive LoopCheckError (π ι : Type) where
  | ioErr : ι → LoopCheckError π ι
  | loopErr : π → π → LoopCheckError π ι
deriving DecidableEq, Repr

/-- The `for ancestor in self.stack_path.iter().rev()` loop body of
src/walk.rs, IntoIter::check_loop, over an already-reversed chain. -/
def checkLoopGo (isSame : π → η → σ → Except ι Bool) (child : π) (hnd : σ) :
    List (Ancestor π η) → Except (LoopCheckError π ι) Unit
  | [] => Except.ok ()
  | a :: rest =>
    match isSame a.path a.ext hnd with
    | Except.error e => Except.error (LoopCheckError.ioErr e)
    | Except.ok true => Except.error (LoopCheckError.loopErr a.path child)
    | Except.ok false => checkLoopGo isSame child hnd rest

/-- src/walk.rs, IntoIter::check_loop (lines 1215-1231): obtain a same-file
handle for the candidate and compare it against the ancestor chain from the
innermost (most recently pushed) ancestor outward. -/
def check_loop (getHandle : π → Except ι σ)
    (isSame : π → η → σ → Except ι Bool)
    (ancestors : List (Ancestor π η)) (child : π) :
    Except (LoopCheckError π ι) Unit :=
  match getHandle child with
  | Except.error e => Except.error (LoopCheckError.ioErr e)
  | Except.ok hnd => checkLoopGo isSame child hnd ancestors.reverse

/-- The builder setter calls that can be interleaved
(src/opts.rs, impl WalkDir, lines 193-399). -/
inductive SetterOp where
  | sameFileSystem : Bool → SetterOp
  | followLinks : Bool → SetterOp
  | yieldLoopLinks : Bool → SetterOp
  | minDepth : Nat → SetterOp
  | maxDepth : Nat → SetterOp
  | maxOpen : Nat → SetterOp
  | contentsFirst : Bool → SetterOp
  | contentFilterSet : ContentFilter → SetterOp
  | contentOrderSet : ContentOrder → SetterOp
deriving DecidableEq, Repr

/-- One builder setter call (src/opts.rs): min_depth and max_depth clamp
against each other, max_open coerces 0 to 1, the rest assign. -/
def applySetter (o : WalkDirOptionsImmut) : SetterOp → WalkDirOptionsImmut
  | SetterOp.sameFileSystem b => { o with same_file_system := b }
  | SetterOp.followLinks b => { o with follow_links := b }
  | SetterOp.yieldLoopLinks b => { o with yield_loop_links := b }
  | SetterOp.minDepth d =>
      let o1 := { o with min_depth := d }
      if o1.max_depth < o1.min_depth then { o1 with min_depth := o1.max_depth }
      else o1
  | SetterOp.maxDepth d =>
      let o1 := { o with max_depth := d }
      if o1.max_depth < o1.min_depth then { o1 with max_depth := o1.min_depth }
      else o1
  | SetterOp.maxOpen n =>
      { o with max_open := if n = 0 then 1 else n }
  | SetterOp.contentsFirst b => { o with contents_first := b }
  | SetterOp.contentFilterSet f => { o with content_filter := f }
  | SetterOp.contentOrderSet ord => { o with content_order := ord }

/-- A chain of builder setter calls applied to given options. -/
def applySetters (o : WalkDirOptionsImmut) (ops : List SetterOp) :
    WalkDirOptionsImmut :=
  ops.foldl applySetter o

/-! ## Claim theorems -/

/-- C5: the can-be-yielded test returns true whenever the record is not
hidden by the content filter, and for a hidden record it returns true
exactly when the record wraps a successful entry that is a directory;
a hidden file or a hidden captured-error record is suppressed. -/
theorem c5_can_be_yielded_spec (re : DirEntryRecord α ε) :
    re.can_be_yielded = true ↔
      (re.hidden = false ∨
        ∃ flat, re.flat = Except.ok flat ∧ flat.is_dir = true) := by
  unfold DirEntryRecord.can_be_yielded
  cases hh : re.hidden <;> cases hf : re.flat <;> simp [hh, hf]

/-- C7: a loader built from a failed directory open yields the captured
error exactly once (moving to the consumed-error state), after which every
next yields nothing and leaves the state fixed, and collect_all likewise
yields nothing: the loader behaves as empty forever after. -/
theorem c7_open_error_loader_spec (e : ε) :
    (ReadDir.new (Except.error e) : ReadDir ρ ε) = ReadDir.error (some e) ∧
    (ReadDir.error (some e) : ReadDir ρ ε).next =
      (some (Except.error e), ReadDir.error none) ∧
    (ReadDir.error none : ReadDir ρ ε).next = (none, ReadDir.error none) ∧
    ∀ (process : Except ε ρ → Option τ),
      ReadDir.collect_all process (ReadDir.error none : ReadDir ρ ε) =
        ([], ReadDir.error none) :=
  ⟨rfl, rfl, rfl, fun _ => rfl⟩

/-- C9: next_position is idempotent at AfterContent: it pulls nothing and
returns the per-directory state unchanged. -/
theorem c9_next_position_idempotent (opts : WalkDirOptionsImmut)
    (classify : ρ → Option (Except ε (FlatDirEntry α)))
    (s : DirState α ε ρ) (h : s.position = Position.afterContent) :
    s.next_position opts classify = s := by
  unfold DirState.next_position
  simp [h]

/-- A concrete finished per-directory state over unit payloads, used as a
witness input. -/
def unitAfterContentState : DirState Unit Unit Unit :=
  ⟨0, ⟨ReadDir.closed, [], none⟩, DirPass.entire, Position.afterContent⟩

/-- A trivial classifier over unit payloads, used as a witness input. -/
def unitClassify : Unit → Option (Except Unit (FlatDirEntry Unit)) :=
  fun _ => none

/-- C9 witness: a concrete AfterContent state is fixed by next_position. -/
theorem c9_witness :
    unitAfterContentState.position = Position.afterContent ∧
    DirState.next_position WalkDirOptionsImmut.default unitClassify
      unitAfterContentState = unitAfterContentState :=
  ⟨rfl, c9_next_position_idempotent WalkDirOptionsImmut.default unitClassify
    unitAfterContentState rfl⟩

/-- C10: the builder keeps min_depth at most max_depth: an oversized
min_depth is clamped down to max_depth, an undersized max_depth is clamped
up to min_depth, every single setter call preserves the bound, and the bound
holds after any sequence of setter calls starting from the defaults. -/
theorem c10_builder_depth_clamping :
    (∀ (o : WalkDirOptionsImmut) (d : Nat), o.max_depth < d →
        (applySetter o (SetterOp.minDepth d)).min_depth = o.max_depth ∧
        (applySetter o (SetterOp.minDepth d)).max_depth = o.max_depth) ∧
    (∀ (o : WalkDirOptionsImmut) (d : Nat), d < o.min_depth →
        (applySetter o (SetterOp.maxDepth d)).max_depth = o.min_depth ∧
        (applySetter o (SetterOp.maxDepth d)).min_depth = o.min_depth) ∧
    (∀ (o : WalkDirOptionsImmut) (op : SetterOp),
        o.min_depth ≤ o.max_depth →
        (applySetter o op).min_depth ≤ (applySetter o op).max_depth) ∧
    (∀ ops : List SetterOp,
        (applySetters WalkDirOptionsImmut.default ops).min_depth ≤
          (applySetters WalkDirOptionsImmut.default ops).max_depth) := by
  have hstep : ∀ (o : WalkDirOptionsImmut) (op : SetterOp),
      o.min_depth ≤ o.max_depth →
      (applySetter o op).min_depth ≤ (applySetter o op).max_depth := by
    intro o op h
    cases op <;> simp only [applySetter] <;> first
      | exact h
      | (split <;> simp <;> omega)
  refine ⟨?_, ?_, hstep, ?_⟩
  · intro o d hd
    simp only [applySetter]
    split
    · exact ⟨rfl, rfl⟩
    · rename_i hc
      simp at hc
      omega
  · intro o d hd
    simp only [applySetter]
    split
    · exact ⟨rfl, rfl⟩
    · rename_i hc
      simp at hc
      omega
  · intro ops
    have haux : ∀ (l : List SetterOp) (o : WalkDirOptionsImmut),
        o.min_depth ≤ o.max_depth →
        (applySetters o l).min_depth ≤ (applySetters o l).max_depth := by
      intro l
      induction l with
      | nil => intro o h; exact h
      | cons op rest ih =>
          intro o h
          exact ih (applySetter o op) (hstep o op h)
    exact haux ops WalkDirOptionsImmut.default (Nat.zero_le _)

/-- Default options with only the depth interval changed, for witnesses. -/
def depthOpts (mn mx : Nat) : WalkDirOptionsImmut :=
  { WalkDirOptionsImmut.default with min_depth := mn, max_depth := mx }

/-- C10 witness: concrete clamping runs. -/
theorem c10_witness :
    ((3 : Nat) < 5 ∧
     (applySetter (depthOpts 0 3) (SetterOp.minDepth 5)).min_depth = 3) ∧
    ((2 : Nat) < 4 ∧
     (applySetter (depthOpts 4 9) (SetterOp.maxDepth 2)).max_depth = 4) ∧
    ((0 : Nat) ≤ 7 ∧
     (applySetter (depthOpts 0 7) (SetterOp.maxDepth 6)).min_depth ≤
       (applySetter (depthOpts 0 7) (SetterOp.maxDepth 6)).max_depth) :=
  ⟨⟨by decide,
      (c10_builder_depth_clamping.1 (depthOpts 0 3) 5 (by decide)).1⟩,
   ⟨by decide,
      (c10_builder_depth_clamping.2.1 (depthOpts 4 9) 2 (by decide)).1⟩,
   ⟨by decide,
      c10_builder_depth_clamping.2.2.1 (depthOpts 0 7)
        (SetterOp.maxDepth 6) (by decide)⟩⟩

theorem checkLoopGo_spec [DecidableEq ι] (isSame : π → η → σ → Except ι Bool)
    (child : π) (hnd : σ) (l : List (Ancestor π η))
    (hok : ∀ a ∈ l, ∃ b, isSame a.path a.ext hnd = Except.ok b) :
    checkLoopGo isSame child hnd l =
      match l.find?
          (fun a => decide (isSame a.path a.ext hnd = Except.ok true)) with
      | some a => Except.error (LoopCheckError.loopErr a.path child)
      | Option.none => Except.ok () := by
  induction l with
  | nil => rfl
  | cons a rest ih =>
    obtain ⟨b, hb⟩ := hok a (List.mem_cons_self a rest)
    cases b with
    | false =>
        rw [List.find?_cons_of_neg _ (by simp [hb])]
        unfold checkLoopGo
        rw [hb]
        exact ih (fun x hx => hok x (List.mem_cons_of_mem _ hx))
    | true =>
        rw [List.find?_cons_of_pos _ (by simp [hb])]
        unfold checkLoopGo
        rw [hb]

/-- C6: check_loop obtains a same-file handle for the candidate and scans
the ancestor chain from the innermost (most recently pushed) ancestor
outward, reporting a loop against the first matching ancestor and no loop
when none matches, provided every same-file comparison succeeds. -/
theorem c6_check_loop_spec [DecidableEq ι] (getHandle : π → Except ι σ)
    (isSame : π → η → σ → Except ι Bool)
    (ancestors : List (Ancestor π η)) (child : π) (hnd : σ)
    (hh : getHandle child = Except.ok hnd)
    (hok : ∀ a ∈ ancestors, ∃ b, isSame a.path a.ext hnd = Except.ok b) :
    check_loop getHandle isSame ancestors child =
      match ancestors.reverse.find?
          (fun a => decide (isSame a.path a.ext hnd = Except.ok true)) with
      | some a => Except.error (LoopCheckError.loopErr a.path child)
      | Option.none => Except.ok () := by
  unfold check_loop
  rw [hh]
  exact checkLoopGo_spec isSame child hnd ancestors.reverse
    (fun a ha => hok a (List.mem_reverse.mp ha))

/-- C6 witness: on the chain [outermost ⟨1,1⟩, innermost ⟨2,2⟩] with a
handle matching both, the innermost ancestor 2 is reported. -/
theorem c6_witness :
    ((fun p => (Except.ok p : Except Unit Nat)) 9 = Except.ok 9 ∧
     ∀ a ∈ [(⟨1, 1⟩ : Ancestor Nat Nat), ⟨2, 2⟩],
       ∃ b, (fun (_ : Nat) (_ : Nat) (_ : Nat) =>
          (Except.ok true : Except Unit Bool)) a.path a.ext 9 =
            Except.ok b) ∧
    check_loop (fun p => (Except.ok p : Except Unit Nat))
      (fun _ _ _ => (Except.ok true : Except Unit Bool))
      [⟨1, 1⟩, ⟨2, 2⟩] 9 =
      Except.error (LoopCheckError.loopErr 2 9) := by
  refine ⟨⟨rfl, by decide⟩, ?_⟩
  rw [c6_check_loop_spec (fun p => (Except.ok p : Except Unit Nat))
    (fun _ _ _ => (Except.ok true : Except Unit Bool))
    [⟨1, 1⟩, ⟨2, 2⟩] 9 9 rfl (by decide)]
  decide

theorem DirContent.get_next_rec_append_only (opts : WalkDirOptionsImmut)
    (classify : ρ → Option (Except ε (FlatDirEntry α)))
    (dc : DirContent α ε ρ) :
    ∃ tail, (dc.get_next_rec opts classify).2.content = dc.content ++ tail := by
  induction dc using DirContent.get_next_rec.induct opts classify with
  | case1 dc re hget =>
    exact ⟨[], by
      rw [DirContent.get_next_rec_buffer opts classify dc re hget]
      simp⟩
  | case2 dc hget r rd' hnext re hnew =>
    refine ⟨[re], ?_⟩
    rw [DirContent.get_next_rec_pull opts classify dc r rd' hget hnext]
    simp only [hnew]
  | case3 dc hget r rd' hnext hnew ih =>
    rw [DirContent.get_next_rec_pull opts classify dc r rd' hget hnext]
    simp only [hnew]
    exact ih
  | case4 dc hget rd' hnext =>
    exact ⟨[], by
      rw [DirContent.get_next_rec_exhausted opts classify dc rd' hget hnext]
      simp⟩

theorem DirContent.get_next_rec_none_frozen (opts : WalkDirOptionsImmut)
    (classify : ρ → Option (Except ε (FlatDirEntry α)))
    (dc : DirContent α ε ρ) :
    (dc.get_next_rec opts classify).1 = none →
      (dc.get_next_rec opts classify).2.content = dc.content ∧
      (dc.get_next_rec opts classify).2.current_pos = dc.current_pos := by
  induction dc using DirContent.get_next_rec.induct opts classify with
  | case1 dc re hget =>
    rw [DirContent.get_next_rec_buffer opts classify dc re hget]
    intro h
    simp at h
  | case2 dc hget r rd' hnext re hnew =>
    rw [DirContent.get_next_rec_pull opts classify dc r rd' hget hnext]
    simp only [hnew]
    intro h
    simp at h
  | case3 dc hget r rd' hnext hnew ih =>
    rw [DirContent.get_next_rec_pull opts classify dc r rd' hget hnext]
    simp only [hnew]
    exact ih
  | case4 dc hget rd' hnext =>
    rw [DirContent.get_next_rec_exhausted opts classify dc rd' hget hnext]
    exact fun _ => ⟨rfl, rfl⟩

theorem DirContent.get_next_rec_some_at_cursor (opts : WalkDirOptionsImmut)
    (classify : ρ → Option (Except ε (FlatDirEntry α)))
    (dc : DirContent α ε ρ) :
    ∀ fl, (dc.get_next_rec opts classify).1 = some fl →
      ∃ p re, (dc.get_next_rec opts classify).2.current_pos = some p ∧
        (dc.get_next_rec opts classify).2.content[p]? = some re ∧
        fl = (re.first_pass, re.can_be_yielded) := by
  induction dc using DirContent.get_next_rec.induct opts classify with
  | case1 dc re hget =>
    intro fl h
    rw [DirContent.get_next_rec_buffer opts classify dc re hget] at h ⊢
    refine ⟨dc.nextPos, re, rfl, hget, ?_⟩
    simpa using h.symm
  | case2 dc hget r rd' hnext re hnew =>
    intro fl h
    rw [DirContent.get_next_rec_pull opts classify dc r rd' hget hnext] at h ⊢
    simp only [hnew] at h ⊢
    refine ⟨dc.content.length, re, by simp, ?_, by simpa using h.symm⟩
    simp
  | case3 dc hget r rd' hnext hnew ih =>
    intro fl h
    rw [DirContent.get_next_rec_pull opts classify dc r rd' hget hnext] at h ⊢
    simp only [hnew] at h ⊢
    exact ih fl h
  | case4 dc hget rd' hnext =>
    intro fl h
    rw [DirContent.get_next_rec_exhausted opts classify dc rd' hget hnext] at h
    simp at h

theorem DirContent.get_next_rec_cursor_advance (opts : WalkDirOptionsImmut)
    (classify : ρ → Option (Except ε (FlatDirEntry α)))
    (dc : DirContent α ε ρ) :
    dc.nextPos ≤ dc.content.length →
      ∀ fl, (dc.get_next_rec opts classify).1 = some fl →
        (dc.get_next_rec opts classify).2.current_pos = some dc.nextPos := by
  induction dc using DirContent.get_next_rec.induct opts classify with
  | case1 dc re hget =>
    intro _ fl _
    rw [DirContent.get_next_rec_buffer opts classify dc re hget]
  | case2 dc hget r rd' hnext re hnew =>
    intro hle fl _
    rw [DirContent.get_next_rec_pull opts classify dc r rd' hget hnext]
    simp only [hnew]
    have hge : dc.content.length ≤ dc.nextPos := by
      by_contra hc
      push_neg at hc
      rw [List.getElem?_eq_getElem hc] at hget
      simp at hget
    have : dc.nextPos = dc.content.length := Nat.le_antisymm hle hge
    simp [this]
  | case3 dc hget r rd' hnext hnew ih =>
    intro hle fl h
    rw [DirContent.get_next_rec_pull opts classify dc r rd' hget hnext] at h ⊢
    simp only [hnew] at h ⊢
    exact ih hle fl h
  | case4 dc hget rd' hnext =>
    intro _ fl h
    rw [DirContent.get_next_rec_exhausted opts classify dc rd' hget hnext] at h
    simp at h

/-- C8: once a record is materialized at an index, a pull that lands on it
is served from the buffer, touching neither the backend nor the buffer;
every pull only appends to the buffer (records are never removed or
re-fetched); an exhausted pull leaves buffer and cursor unchanged, a
successful pull moves the cursor exactly one position forward, and rewind
only resets the cursor to before-beginning. -/
theorem c8_loader_buffer_invariants (opts : WalkDirOptionsImmut)
    (classify : ρ → Option (Except ε (FlatDirEntry α)))
    (dc : DirContent α ε ρ) :
    (∀ re, dc.content[dc.nextPos]? = some re →
       dc.get_next_rec opts classify =
         (some (re.first_pass, re.can_be_yielded),
          { dc with current_pos := some dc.nextPos })) ∧
    (∃ tail, (dc.get_next_rec opts classify).2.content = dc.content ++ tail) ∧
    ((dc.get_next_rec opts classify).1 = none →
       (dc.get_next_rec opts classify).2.content = dc.content ∧
       (dc.get_next_rec opts classify).2.current_pos = dc.current_pos) ∧
    (dc.nextPos ≤ dc.content.length →
       ∀ fl, (dc.get_next_rec opts classify).1 = some fl →
         (dc.get_next_rec opts classify).2.current_pos = some dc.nextPos) ∧
    (dc.rewind.content = dc.content ∧ dc.rewind.rd = dc.rd ∧
       dc.rewind.current_pos = none) :=
  ⟨fun re hget => DirContent.get_next_rec_buffer opts classify dc re hget,
   DirContent.get_next_rec_append_only opts classify dc,
   DirContent.get_next_rec_none_frozen opts classify dc,
   DirContent.get_next_rec_cursor_advance opts classify dc,
   rfl, rfl, rfl⟩

/-- A concrete one-record loader over unit payloads, used as a witness
input: one buffered record, closed backend, cursor before beginning. -/
def unitOneRecContent : DirContent Unit Unit Unit :=
  ⟨ReadDir.closed, [⟨Except.error (), false, false⟩], none⟩

/-- C8 witness: on a loader with one buffered record and the cursor before
the beginning, the pull is served from the buffer verbatim, and the other
invariants evaluate at the same input. -/
theorem c8_witness :
    (unitOneRecContent.content[unitOneRecContent.nextPos]? =
       some ⟨Except.error (), false, false⟩ ∧
     unitOneRecContent.get_next_rec WalkDirOptionsImmut.default unitClassify =
       (some (false, true),
        { unitOneRecContent with current_pos := some 0 })) ∧
    (unitOneRecContent.nextPos ≤ unitOneRecContent.content.length ∧
     (unitOneRecContent.get_next_rec WalkDirOptionsImmut.default
        unitClassify).2.current_pos = some unitOneRecContent.nextPos) := by
  have h1 := (c8_loader_buffer_invariants WalkDirOptionsImmut.default
      unitClassify unitOneRecContent).1 ⟨Except.error (), false, false⟩ rfl
  refine ⟨⟨rfl, h1⟩, by decide, ?_⟩
  exact (c8_loader_buffer_invariants WalkDirOptionsImmut.default
      unitClassify unitOneRecContent).2.2.2.1 (by decide) (false, true)
      (by rw [h1]; rfl)

/-- The pass acceptance predicate of src/dir.rs, DirState::shift_next:
Entire accepts everything, First only records whose first-pass flag is set,
Second only the complement. -/
def passAccepts (p : DirPass) (fp : Bool) : Bool :=
  match p with
  | DirPass.entire => true
  | DirPass.first => fp
  | DirPass.second => !fp

theorem DirState.shift_next_pull (opts : WalkDirOptionsImmut)
    (classify : ρ → Option (Except ε (FlatDirEntry α)))
    (s : DirState α ε ρ) (fl : Bool × Bool) (dc' : DirContent α ε ρ)
    (h : s.content.get_next_rec opts classify = (some fl, dc')) :
    s.shift_next opts classify =
      (if passAccepts s.pass fl.1 && fl.2 then (true, { s with content := dc' })
       else DirState.shift_next opts classify { s with content := dc' }) := by
  rw [DirState.shift_next]
  split
  · rename_i fl1 dc1 heq
    rw [h] at heq
    obtain ⟨h1, h2⟩ := Prod.mk.injEq .. ▸ heq
    obtain rfl := Option.some.injEq .. ▸ h1
    subst h2
    cases s.pass <;> rfl
  · rename_i dc1 heq
    rw [h] at heq
    simp at heq

theorem DirState.shift_next_exhaust_end (opts : WalkDirOptionsImmut)
    (classify : ρ → Option (Except ε (FlatDirEntry α)))
    (s : DirState α ε ρ) (dc' : DirContent α ε ρ)
    (h : s.content.get_next_rec opts classify = (none, dc'))
    (hp : s.pass = DirPass.entire ∨ s.pass = DirPass.second) :
    s.shift_next opts classify =
      (false, { s with content := dc', position := Position.afterContent }) := by
  rw [DirState.shift_next]
  split
  · rename_i fl1 dc1 heq
    rw [h] at heq
    simp at heq
  · rename_i dc1 heq
    rw [h] at heq
    obtain ⟨-, h2⟩ := Prod.mk.injEq .. ▸ heq
    subst h2
    rcases hp with hp | hp <;> split <;> simp_all

theorem DirState.shift_next_exhaust_first (opts : WalkDirOptionsImmut)
    (classify : ρ → Option (Except ε (FlatDirEntry α)))
    (s : DirState α ε ρ) (dc' : DirContent α ε ρ)
    (h : s.content.get_next_rec opts classify = (none, dc'))
    (hp : s.pass = DirPass.first) :
    s.shift_next opts classify =
      DirState.shift_next opts classify
        { s with pass := DirPass.second, content := dc'.rewind } := by
  rw [DirState.shift_next]
  split
  · rename_i fl1 dc1 heq
    rw [h] at heq
    simp at heq
  · rename_i dc1 heq
    rw [h] at heq
    obtain ⟨-, h2⟩ := Prod.mk.injEq .. ▸ heq
    subst h2
    split <;> simp_all

/-- C4: shift_next accepts, during the First pass, only can-be-yielded
records whose first-pass flag is set and, during the Second pass, only the
complement (the Entire pass accepts any can-be-yielded record); the pass
tag never moves except from First to Second; when the First pass exhausts
the loader the state switches to Second and rewinds the cursor before
rescanning; and when the scan ends unaccepted the position becomes
AfterContent. -/
theorem c4_two_pass_spec (opts : WalkDirOptionsImmut)
    (classify : ρ → Option (Except ε (FlatDirEntry α)))
    (s : DirState α ε ρ) :
    ((s.shift_next opts classify).1 = true →
       ∃ p re,
         (s.shift_next opts classify).2.content.current_pos = some p ∧
         (s.shift_next opts classify).2.content.content[p]? = some re ∧
         re.can_be_yielded = true ∧
         ((s.shift_next opts classify).2.pass = DirPass.first →
           re.first_pass = true) ∧
         ((s.shift_next opts classify).2.pass = DirPass.second →
           re.first_pass = false)) ∧
    ((s.shift_next opts classify).1 = false →
       (s.shift_next opts classify).2.position = Position.afterContent) ∧
    (s.pass = DirPass.entire →
       (s.shift_next opts classify).2.pass = DirPass.entire) ∧
    (s.pass = DirPass.second →
       (s.shift_next opts classify).2.pass = DirPass.second) ∧
    (s.pass = DirPass.first →
       (s.shift_next opts classify).2.pass = DirPass.first ∨
       (s.shift_next opts classify).2.pass = DirPass.second) ∧
    (s.pass = DirPass.first →
       (s.content.get_next_rec opts classify).1 = none →
       s.shift_next opts classify =
         DirState.shift_next opts classify
           { s with
             pass := DirPass.second
             content := (s.content.get_next_rec opts classify).2.rewind }) := by
  induction s using DirState.shift_next.induct opts classify with
  | case1 s fl dc' h vp hacc =>
    have hacc2 : (passAccepts s.pass fl.1 && fl.2) = true := hacc
    rw [DirState.shift_next_pull opts classify s fl dc' h, if_pos hacc2]
    obtain ⟨p, re, hp, hre, hfl⟩ :=
      DirContent.get_next_rec_some_at_cursor opts classify s.content fl
        (by rw [h])
    rw [h] at hp hre
    refine ⟨?_, by simp, fun h1 => h1 ▸ rfl, fun h1 => h1 ▸ rfl,
      fun h1 => Or.inl (h1 ▸ rfl), ?_⟩
    · intro _
      refine ⟨p, re, hp, hre, ?_, ?_, ?_⟩
      · have hr := Bool.and_elim_right hacc2
        rw [hfl] at hr
        exact hr
      · intro hpass
        have hps : s.pass = DirPass.first := hpass
        have hl := Bool.and_elim_left hacc2
        rw [hfl, hps] at hl
        simpa [passAccepts] using hl
      · intro hpass
        have hps : s.pass = DirPass.second := hpass
        have hl := Bool.and_elim_left hacc2
        rw [hfl, hps] at hl
        simpa [passAccepts] using hl
    · intro hfirst hnone
      rw [h] at hnone
      simp at hnone
  | case2 s fl dc' h vp hacc ih =>
    have hacc2 : ¬(passAccepts s.pass fl.1 && fl.2) = true := hacc
    rw [DirState.shift_next_pull opts classify s fl dc' h, if_neg hacc2]
    obtain ⟨ih1, ih2, ihE, ihS, ihF, -⟩ := ih
    refine ⟨ih1, ih2, fun h1 => ihE h1, fun h1 => ihS h1,
      fun h1 => ihF h1, ?_⟩
    intro hfirst hnone
    rw [h] at hnone
    simp at hnone
  | case3 s dc' h hp =>
    rw [DirState.shift_next_exhaust_end opts classify s dc' h (Or.inl hp)]
    refine ⟨by simp, fun _ => rfl, fun _ => hp ▸ rfl, ?_, ?_, ?_⟩
    · intro h1; rw [hp] at h1; cases h1
    · intro h1; rw [hp] at h1; cases h1
    · intro h1; rw [hp] at h1; cases h1
  | case4 s dc' h hp =>
    rw [DirState.shift_next_exhaust_end opts classify s dc' h (Or.inr hp)]
    refine ⟨by simp, fun _ => rfl, ?_, fun _ => hp ▸ rfl, ?_, ?_⟩
    · intro h1; rw [hp] at h1; cases h1
    · intro h1; rw [hp] at h1; cases h1
    · intro h1; rw [hp] at h1; cases h1
  | case5 s dc' h hp ih =>
    have heq := DirState.shift_next_exhaust_first opts classify s dc' h hp
    rw [heq]
    obtain ⟨ih1, ih2, ihE, ihS, ihF, -⟩ := ih
    refine ⟨ih1, ih2, ?_, ?_, ?_, ?_⟩
    · intro h1; rw [hp] at h1; cases h1
    · intro h1; rw [hp] at h1; cases h1
    · intro _
      exact Or.inr (ihS rfl)
    · intro _ _
      rw [h]

/-- A per-directory state over the one-record loader, Entire pass, used as
a witness input. -/
def unitEntryState : DirState Unit Unit Unit :=
  ⟨0, unitOneRecContent, DirPass.entire, Position.beforeContent ()⟩

/-- A per-directory state over an exhausted loader, Entire pass, used as a
witness input. -/
def unitEmptyState : DirState Unit Unit Unit :=
  ⟨0, ⟨ReadDir.closed, [], none⟩, DirPass.entire, Position.beforeContent ()⟩

/-- C4 witness: a concrete accepting pull lands the cursor on a
can-be-yielded record, and a concrete exhausted pull ends at AfterContent. -/
theorem c4_witness :
    ((unitEntryState.shift_next WalkDirOptionsImmut.default unitClassify).1 =
        true ∧
     ∃ p re,
       (unitEntryState.shift_next WalkDirOptionsImmut.default
          unitClassify).2.content.current_pos = some p ∧
       (unitEntryState.shift_next WalkDirOptionsImmut.default
          unitClassify).2.content.content[p]? = some re ∧
       re.can_be_yielded = true ∧
       ((unitEntryState.shift_next WalkDirOptionsImmut.default
          unitClassify).2.pass = DirPass.first → re.first_pass = true) ∧
       ((unitEntryState.shift_next WalkDirOptionsImmut.default
          unitClassify).2.pass = DirPass.second → re.first_pass = false)) ∧
    ((unitEmptyState.shift_next WalkDirOptionsImmut.default unitClassify).1 =
        false ∧
     (unitEmptyState.shift_next WalkDirOptionsImmut.default
        unitClassify).2.position = Position.afterContent) := by
  have hgnr := DirContent.get_next_rec_buffer WalkDirOptionsImmut.default
    unitClassify unitOneRecContent ⟨Except.error (), false, false⟩ rfl
  have heq := DirState.shift_next_pull WalkDirOptionsImmut.default
    unitClassify unitEntryState (false, true)
    { unitOneRecContent with current_pos := some 0 } hgnr
  have heq2 : unitEntryState.shift_next WalkDirOptionsImmut.default
      unitClassify =
      (true, { unitEntryState with
               content := { unitOneRecContent with current_pos := some 0 } }) := by
    rw [heq]; rfl
  have hgnr2 : unitEmptyState.content.get_next_rec WalkDirOptionsImmut.default
      unitClassify = (none, unitEmptyState.content) :=
    DirContent.get_next_rec_exhausted WalkDirOptionsImmut.default unitClassify
      unitEmptyState.content ReadDir.closed rfl rfl
  have heq3 := DirState.shift_next_exhaust_end WalkDirOptionsImmut.default
    unitClassify unitEmptyState unitEmptyState.content hgnr2 (Or.inl rfl)
  refine ⟨⟨by rw [heq2], ?_⟩, by rw [heq3], ?_⟩
  · exact (c4_two_pass_spec WalkDirOptionsImmut.default unitClassify
      unitEntryState).1 (by rw [heq2])
  · exact (c4_two_pass_spec WalkDirOptionsImmut.default unitClassify
      unitEmptyState).2.1 (by rw [heq3])

theorem recLE_eq_true (cmp : α → α → Ordering) (a b : DirEntryRecord α ε) :
    recLE cmp a b = true ↔ recCompare cmp a b ≠ Ordering.gt := by
  unfold recLE
  cases h : recCompare cmp a b <;> simp

theorem recLE_trans (cmp : α → α → Ordering)
    (htrans : ∀ x y z : α, cmp x y ≠ Ordering.gt → cmp y z ≠ Ordering.gt →
      cmp x z ≠ Ordering.gt) :
    ∀ a b c : DirEntryRecord α ε,
      recLE cmp a b = true → recLE cmp b c = true → recLE cmp a c = true := by
  intro a b c hab hbc
  rw [recLE_eq_true] at hab hbc ⊢
  cases ha : a.flat with
  | error ea => cases hc : c.flat <;> simp [recCompare, ha, hc]
  | ok x =>
    cases hb : b.flat with
    | error eb =>
      rw [show recCompare cmp a b = Ordering.gt by
        simp [recCompare, ha, hb]] at hab
      exact absurd rfl hab
    | ok y =>
      cases hc : c.flat with
      | error ec =>
        rw [show recCompare cmp b c = Ordering.gt by
          simp [recCompare, hb, hc]] at hbc
        exact absurd rfl hbc
      | ok z =>
        simp only [recCompare, ha, hb, hc] at hab hbc ⊢
        exact htrans _ _ _ hab hbc

theorem recLE_total (cmp : α → α → Ordering)
    (htot : ∀ x y : α, cmp x y ≠ Ordering.gt ∨ cmp y x ≠ Ordering.gt) :
    ∀ a b : DirEntryRecord α ε,
      (recLE cmp a b || recLE cmp b a) = true := by
  intro a b
  cases ha : a.flat with
  | error ea =>
    have hle : recLE cmp a b = true := by
      rw [recLE_eq_true]
      cases hb : b.flat <;> simp [recCompare, ha, hb]
    simp [hle]
  | ok x =>
    cases hb : b.flat with
    | error eb =>
      have hle : recLE cmp b a = true := by
        rw [recLE_eq_true]
        simp [recCompare, ha, hb]
      simp [hle]
    | ok y =>
      rcases htot x.raw y.raw with h | h
      · have hle : recLE cmp a b = true := by
          rw [recLE_eq_true]
          simpa [recCompare, ha, hb] using h
        simp [hle]
      · have hle : recLE cmp b a = true := by
          rw [recLE_eq_true]
          simpa [recCompare, ha, hb] using h
        simp [hle]

theorem ReadDir.collect_all_snd (process : Except ε ρ → Option τ)
    (rd : ReadDir ρ ε) :
    (ReadDir.collect_all process rd).2 = ReadDir.closed ∨
    (ReadDir.collect_all process rd).2 = ReadDir.error none := by
  cases rd with
  | once o => cases o <;> exact Or.inl rfl
  | opened l => exact Or.inl rfl
  | closed => exact Or.inl rfl
  | error o => cases o <;> exact Or.inr rfl

/-- C1 (amended): load_all_and_sort drains the backend into the buffer,
stable-sorts the buffer and resets the cursor to before-beginning; under a
transitive and total caller comparator the sorted buffer is a permutation
of the drained buffer in which every successfully classified record is
followed only by successfully classified records in comparator order — so
every failed record is placed BEFORE all successful records (the comparator
makes a failure Less than a success) — and any two failed records compare
equal to each other. -/
theorem c1_amended_sort_spec (opts : WalkDirOptionsImmut)
    (classify : ρ → Option (Except ε (FlatDirEntry α)))
    (cmp : α → α → Ordering) (dc : DirContent α ε ρ)
    (htrans : ∀ x y z : α, cmp x y ≠ Ordering.gt → cmp y z ≠ Ordering.gt →
      cmp x z ≠ Ordering.gt)
    (htot : ∀ x y : α, cmp x y ≠ Ordering.gt ∨ cmp y x ≠ Ordering.gt) :
    (dc.load_all_and_sort opts cmp classify).current_pos = none ∧
    ((dc.load_all_and_sort opts cmp classify).rd = ReadDir.closed ∨
     (dc.load_all_and_sort opts cmp classify).rd = ReadDir.error none) ∧
    ((dc.load_all_and_sort opts cmp classify).content).Perm
      ((dc.load_all opts classify).content) ∧
    (∀ i j
       (hi : i < (dc.load_all_and_sort opts cmp classify).content.length)
       (hj : j < (dc.load_all_and_sort opts cmp classify).content.length),
       i < j →
       ∀ fi, ((dc.load_all_and_sort opts cmp classify).content[i]).flat =
           Except.ok fi →
         ∃ fj, ((dc.load_all_and_sort opts cmp classify).content[j]).flat =
             Except.ok fj ∧ cmp fi.raw fj.raw ≠ Ordering.gt) ∧
    (∀ (a b : DirEntryRecord α ε) ea eb, a.flat = Except.error ea →
       b.flat = Except.error eb → recCompare cmp a b = Ordering.eq) := by
  refine ⟨rfl, ?_, ?_, ?_, ?_⟩
  · exact ReadDir.collect_all_snd (DirEntryRecord.new opts classify) dc.rd
  · exact List.mergeSort_perm _ _
  · show ∀ i j
        (hi : i <
          ((dc.load_all opts classify).content.mergeSort (recLE cmp)).length)
        (hj : j <
          ((dc.load_all opts classify).content.mergeSort (recLE cmp)).length),
        i < j →
        ∀ fi,
          (((dc.load_all opts classify).content.mergeSort
            (recLE cmp))[i]).flat = Except.ok fi →
          ∃ fj,
            (((dc.load_all opts classify).content.mergeSort
              (recLE cmp))[j]).flat = Except.ok fj ∧
            cmp fi.raw fj.raw ≠ Ordering.gt
    intro i j hi hj hij fi hfi
    have hp := List.sorted_mergeSort (recLE_trans cmp htrans)
      (recLE_total cmp htot) ((dc.load_all opts classify).content)
    have hrel := List.pairwise_iff_getElem.mp hp i j hi hj hij
    rw [recLE_eq_true] at hrel
    cases hfj : (((dc.load_all opts classify).content.mergeSort
        (recLE cmp))[j]).flat with
    | error e =>
      exfalso
      apply hrel
      simp [recCompare, hfi, hfj]
    | ok fj =>
      refine ⟨fj, rfl, ?_⟩
      intro hgt
      apply hrel
      simp [recCompare, hfi, hfj, hgt]
  · intro a b ea eb ha hb
    simp [recCompare, ha, hb]

theorem perm_pair_pairwise_eq {β : Type} {R : β → β → Prop} {l : List β}
    {x y : β} (hperm : l.Perm [x, y]) (hpair : List.Pairwise R l)
    (hxy : ¬ R x y) : l = [y, x] := by
  have hlen : l.length = 2 := by rw [hperm.length_eq]; rfl
  obtain ⟨a, b, rfl⟩ := List.length_eq_two.mp hlen
  have hR : R a b := (List.pairwise_cons.mp hpair).1 b (by simp)
  have ha : a ∈ [x, y] := hperm.mem_iff.mp (by simp)
  rcases List.mem_pair.mp ha with rfl | rfl
  · have hb : [b].Perm [y] := hperm.cons_inv
    have hby : b = y := by simpa using List.perm_singleton.mp hb
    subst hby
    exact absurd hR hxy
  · have hperm2 : ([a, b]).Perm [a, x] :=
      hperm.trans (List.Perm.swap a x [])
    have hb : [b].Perm [x] := hperm2.cons_inv
    have hbx : b = x := by simpa using List.perm_singleton.mp hb
    subst hbx
    rfl

/-- A successful record over Bool payloads, used in the C1 counterexample. -/
def okRecB : DirEntryRecord Bool Unit :=
  ⟨Except.ok ⟨false, false, none⟩, false, false⟩

/-- A failed record over Bool payloads, used in the C1 counterexample. -/
def errRecB : DirEntryRecord Bool Unit :=
  ⟨Except.error (), false, false⟩

/-- A loader holding one successful then one failed record, backend closed. -/
def pairContent : DirContent Bool Unit Unit :=
  ⟨ReadDir.closed, [okRecB, errRecB], none⟩

/-- The everything-is-equal comparator on Bool raw entries. -/
def cmpEqB : Bool → Bool → Ordering := fun _ _ => Ordering.eq

/-- A trivial classifier over Bool payloads. -/
def boolClassify : Unit → Option (Except Unit (FlatDirEntry Bool)) :=
  fun _ => none

theorem pair_sorted_eq :
    (pairContent.load_all_and_sort WalkDirOptionsImmut.default cmpEqB
      boolClassify).content = [errRecB, okRecB] := by
  have hstep : (pairContent.load_all_and_sort WalkDirOptionsImmut.default
      cmpEqB boolClassify).content =
      [okRecB, errRecB].mergeSort (recLE cmpEqB) := rfl
  rw [hstep]
  exact perm_pair_pairwise_eq (List.mergeSort_perm _ _)
    (List.sorted_mergeSort (recLE_trans cmpEqB (by decide))
      (recLE_total cmpEqB (by decide)) _)
    (by decide)

/-- C1 counterexample: on a buffer holding one successful record and then
one failed record, load_all_and_sort places the FAILED record first (the
comparator makes a failure Less than a success), so "every record whose
classification failed is placed after all successful records" is false: the
failed record sits at index 0, the successful one at index 1. -/
theorem c1_counterexample :
    (pairContent.load_all_and_sort WalkDirOptionsImmut.default cmpEqB
      boolClassify).content = [errRecB, okRecB] ∧
    errRecB.flat = Except.error () ∧
    okRecB.flat = Except.ok ⟨false, false, none⟩ ∧
    ¬ (∀ (i j : Nat) (ri rj : DirEntryRecord Bool Unit),
        (pairContent.load_all_and_sort WalkDirOptionsImmut.default cmpEqB
          boolClassify).content[i]? = some ri →
        (pairContent.load_all_and_sort WalkDirOptionsImmut.default cmpEqB
          boolClassify).content[j]? = some rj →
        (∃ e, ri.flat = Except.error e) → (∃ f, rj.flat = Except.ok f) →
        j < i) := by
  refine ⟨pair_sorted_eq, rfl, rfl, ?_⟩
  intro hclaim
  have h01 := hclaim 0 1 errRecB okRecB
    (by rw [pair_sorted_eq]; rfl) (by rw [pair_sorted_eq]; rfl)
    ⟨(), rfl⟩ ⟨⟨false, false, none⟩, rfl⟩
  omega

/-- C1 witness: the amended theorem applied to the concrete two-record
loader; the total equal-everywhere comparator satisfies the hypotheses. -/
theorem c1_witness :
    (∀ x y z : Bool, cmpEqB x y ≠ Ordering.gt → cmpEqB y z ≠ Ordering.gt →
      cmpEqB x z ≠ Ordering.gt) ∧
    (∀ x y : Bool, cmpEqB x y ≠ Ordering.gt ∨ cmpEqB y x ≠ Ordering.gt) ∧
    (pairContent.load_all_and_sort WalkDirOptionsImmut.default cmpEqB
      boolClassify).current_pos = none ∧
    ((pairContent.load_all_and_sort WalkDirOptionsImmut.default cmpEqB
      boolClassify).content).Perm
      ((pairContent.load_all WalkDirOptionsImmut.default
        boolClassify).content) := by
  refine ⟨by decide, by decide, ?_, ?_⟩
  · exact (c1_amended_sort_spec WalkDirOptionsImmut.default boolClassify
      cmpEqB pairContent (by decide) (by decide)).1
  · exact (c1_amended_sort_spec WalkDirOptionsImmut.default boolClassify
      cmpEqB pairContent (by decide) (by decide)).2.2.1

/-- The backend part of a drained loader answers no further pulls. -/
theorem DirContent.load_all_rd_measure (opts : WalkDirOptionsImmut)
    (classify : ρ → Option (Except ε (FlatDirEntry α)))
    (dc : DirContent α ε ρ) :
    ((dc.load_all opts classify).rd).measure = 0 := by
  show (ReadDir.collect_all (DirEntryRecord.new opts classify)
    dc.rd).2.measure = 0
  rcases ReadDir.collect_all_snd (DirEntryRecord.new opts classify) dc.rd
    with h | h <;> rw [h] <;> rfl

/-- A successful Ancestor creation over unit payloads. -/
def unitAnc : Except Unit (Ancestor Unit Unit) := Except.ok ⟨(), ()⟩

/-- A concrete one-deep driver over unit payloads with link-following on,
used by the C2 counterexample: both stacks start empty. -/
def unitDriver0 : IntoIterState Unit Unit Unit Unit Unit :=
  ⟨{ WalkDirOptionsImmut.default with follow_links := true }, [], [], 0⟩

/-- C2 counterexample: with link-following enabled, the very first
successful push (the root descend) pushes one Per-Directory State AND one
Ancestor, after which both stacks have length 1 — the claimed invariant
`ancestors.len() = states.len() - 1` already fails here (1 is not 0):
src/walk.rs pushes an Ancestor on every descend, the root included. -/
theorem c2_counterexample :
    (IntoIterState.push unitClassify unitEmptyState
        unitAnc unitDriver0).2.opts.follow_links = true ∧
    (IntoIterState.push unitClassify unitEmptyState
        unitAnc unitDriver0).1 = Except.ok () ∧
    (IntoIterState.push unitClassify unitEmptyState
        unitAnc unitDriver0).2.states.length = 1 ∧
    (IntoIterState.push unitClassify unitEmptyState
        unitAnc unitDriver0).2.ancestors.length = 1 ∧
    ¬ ((IntoIterState.push unitClassify unitEmptyState
        unitAnc unitDriver0).2.ancestors.length =
       (IntoIterState.push unitClassify unitEmptyState
        unitAnc unitDriver0).2.states.length - 1) := by
  refine ⟨rfl, rfl, rfl, rfl, ?_⟩
  decide

/-- C2 (amended): with link-following enabled the two stacks stay in sync
as `ancestors.len() = states.len()` (not `states.len() - 1`): every push —
successful or aborted by a failed Ancestor creation — preserves the
equality, successful pushes growing both stacks by one, and every
successful pop preserves it as well. -/
theorem c2_amended_stack_sync
    (classify : ρ → Option (Except ε (FlatDirEntry α)))
    (newState : DirState α ε ρ) (rAnc : Except ι (Ancestor π η))
    (it : IntoIterState α ε ρ π η)
    (hfl : it.opts.follow_links = true)
    (hsync : it.ancestors.length = it.states.length) :
    ((IntoIterState.push classify newState rAnc it).2.ancestors.length =
       (IntoIterState.push classify newState rAnc it).2.states.length) ∧
    ((IntoIterState.push classify newState rAnc it).1 = Except.ok () →
       (IntoIterState.push classify newState rAnc
          it).2.states.length = it.states.length + 1 ∧
       (IntoIterState.push classify newState rAnc
          it).2.ancestors.length = it.ancestors.length + 1) ∧
    (∀ it', it.pop = some it' →
       it'.ancestors.length = it'.states.length) := by
  refine ⟨?_, ?_, ?_⟩
  · unfold IntoIterState.push
    rw [hfl, if_pos rfl]
    cases rAnc with
    | error e => simp [hsync, List.length_modify, apply_ite List.length]
    | ok anc => simp [hsync, List.length_modify, apply_ite List.length]
  · unfold IntoIterState.push
    rw [hfl, if_pos rfl]
    cases rAnc with
    | error e => intro h; simp at h
    | ok anc =>
      refine fun _ => ⟨?_, ?_⟩ <;>
        simp [hsync, List.length_modify, apply_ite List.length]
  · intro it' hpop
    unfold IntoIterState.pop at hpop
    cases hlast : it.states.getLast? with
    | none =>
      rw [hlast] at hpop
      exact Option.noConfusion hpop
    | some s =>
      rw [hlast] at hpop
      simp only [hfl] at hpop
      rw [if_pos trivial] at hpop
      cases hanc : it.ancestors.getLast? with
      | none =>
        rw [hanc] at hpop
        exact Option.noConfusion hpop
      | some a =>
        rw [hanc] at hpop
        obtain rfl := (Option.some.injEq .. ▸ hpop : _ = it').symm
        simp only [List.length_dropLast]
        omega

/-- C2 amended-claim witness: concrete push and pop runs that keep the two
stacks equal in length. -/
theorem c2_witness :
    (unitDriver0.opts.follow_links = true ∧
     unitDriver0.ancestors.length = unitDriver0.states.length) ∧
    ((IntoIterState.push unitClassify unitEmptyState
        unitAnc unitDriver0).2.ancestors.length =
     (IntoIterState.push unitClassify unitEmptyState
        unitAnc unitDriver0).2.states.length) := by
  refine ⟨⟨rfl, rfl⟩, ?_⟩
  exact (c2_amended_stack_sync unitClassify unitEmptyState
    unitAnc unitDriver0 rfl rfl).1

/-- C3: when the number of currently-open handles `states.len() -
oldest_opened` has reached the `max_open` ceiling (the builder keeps the
ceiling at least 1), a push drains the Per-Directory State at index
`oldest_opened` through load_all — leaving its backend source unable to
answer any further pull — and, when the push succeeds, increments
`oldest_opened` afterwards; in all cases the open-handle count never
exceeds the ceiling and `oldest_opened` never passes the stack length. -/
theorem c3_fd_budget
    (classify : ρ → Option (Except ε (FlatDirEntry α)))
    (newState : DirState α ε ρ) (rAnc : Except ι (Ancestor π η))
    (it : IntoIterState α ε ρ π η)
    (hinv1 : it.oldest_opened ≤ it.states.length)
    (hinv2 : it.states.length - it.oldest_opened ≤ it.opts.max_open)
    (hmax : 1 ≤ it.opts.max_open) :
    ((IntoIterState.push classify newState rAnc it).2.states.length -
       (IntoIterState.push classify newState rAnc it).2.oldest_opened ≤
       it.opts.max_open) ∧
    ((IntoIterState.push classify newState rAnc it).2.oldest_opened ≤
       (IntoIterState.push classify newState rAnc it).2.states.length) ∧
    (it.states.length - it.oldest_opened = it.opts.max_open →
       (∃ s, it.states[it.oldest_opened]? = some s ∧
          (IntoIterState.push classify newState rAnc
             it).2.states[it.oldest_opened]? =
            some (s.load_all it.opts classify) ∧
          ((s.load_all it.opts classify).content.rd).measure = 0) ∧
       ((IntoIterState.push classify newState rAnc it).1 = Except.ok () →
          (IntoIterState.push classify newState rAnc it).2.oldest_opened =
            it.oldest_opened + 1)) := by
  have hmod : ∀ l : List (DirState α ε ρ), ∀ i,
      (l.modify (fun s => s.load_all it.opts classify) i).length =
        l.length := fun l i => List.length_modify _ _ _
  unfold IntoIterState.push
  simp only []
  by_cases hfree : it.states.length - it.oldest_opened = it.opts.max_open
  · have holt : it.oldest_opened < it.states.length := by omega
    rw [if_pos hfree]
    have hget : it.states[it.oldest_opened]? =
        some it.states[it.oldest_opened] :=
      List.getElem?_eq_getElem holt
    have hmodget :
        (it.states.modify (fun s => s.load_all it.opts classify)
          it.oldest_opened)[it.oldest_opened]? =
          some (it.states[it.oldest_opened].load_all it.opts classify) := by
      rw [List.getElem?_modify_eq, hget]
      rfl
    split
    · cases rAnc with
      | error e =>
        refine ⟨by simpa using hinv2, by simpa using hinv1, fun _ => ⟨?_, ?_⟩⟩
        · exact ⟨it.states[it.oldest_opened], hget, hmodget,
            DirContent.load_all_rd_measure it.opts classify _⟩
        · intro h
          simp at h
      | ok anc =>
        refine ⟨?_, ?_, fun _ => ⟨?_, fun _ => by trivial⟩⟩
        · simp only [List.length_append, List.length_cons, List.length_nil, hmod]
          omega
        · simp only [List.length_append, List.length_cons, List.length_nil, hmod]
          omega
        · refine ⟨it.states[it.oldest_opened], hget, ?_,
            DirContent.load_all_rd_measure it.opts classify _⟩
          rw [List.getElem?_append_left (by rw [hmod]; exact holt)]
          exact hmodget
    · refine ⟨?_, ?_, fun _ => ⟨?_, fun _ => by trivial⟩⟩
      · simp only [List.length_append, List.length_cons, List.length_nil, hmod]
        omega
      · simp only [List.length_append, List.length_cons, List.length_nil, hmod]
        omega
      · refine ⟨it.states[it.oldest_opened], hget, ?_,
          DirContent.load_all_rd_measure it.opts classify _⟩
        rw [List.getElem?_append_left (by rw [hmod]; exact holt)]
        exact hmodget
  · rw [if_neg hfree]
    split
    · cases rAnc with
      | error e =>
        exact ⟨hinv2, hinv1, fun hc => absurd hc hfree⟩
      | ok anc =>
        refine ⟨?_, ?_, fun hc => absurd hc hfree⟩
        · simp only [List.length_append, List.length_cons, List.length_nil]
          omega
        · simp only [List.length_append, List.length_cons, List.length_nil]
          omega
    · refine ⟨?_, ?_, fun hc => absurd hc hfree⟩
      · simp only [List.length_append, List.length_cons, List.length_nil]
        omega
      · simp only [List.length_append, List.length_cons, List.length_nil]
        omega

/-- A per-directory state with one still-open backend item, used in the C3
witness. -/
def unitOpenState : DirState Unit Unit Unit :=
  ⟨1, ⟨ReadDir.opened [Except.ok ()], [], none⟩, DirPass.entire,
   Position.beforeContent ()⟩

/-- A driver at its fd ceiling: max_open = 1, one open state, oldest 0. -/
def budgetDriver : IntoIterState Unit Unit Unit Unit Unit :=
  ⟨{ WalkDirOptionsImmut.default with max_open := 1 }, [unitOpenState], [], 0⟩

/-- C3 witness: pushing onto a driver at its ceiling drains the oldest
state, keeps the open-handle count at the ceiling, and increments
oldest_opened. -/
theorem c3_witness :
    (budgetDriver.oldest_opened ≤ budgetDriver.states.length ∧
     budgetDriver.states.length - budgetDriver.oldest_opened ≤
       budgetDriver.opts.max_open ∧
     1 ≤ budgetDriver.opts.max_open ∧
     budgetDriver.states.length - budgetDriver.oldest_opened =
       budgetDriver.opts.max_open) ∧
    ((IntoIterState.push unitClassify unitEmptyState unitAnc
        budgetDriver).2.states.length -
       (IntoIterState.push unitClassify unitEmptyState unitAnc
        budgetDriver).2.oldest_opened ≤ budgetDriver.opts.max_open) ∧
    (∃ s, budgetDriver.states[budgetDriver.oldest_opened]? = some s ∧
       (IntoIterState.push unitClassify unitEmptyState unitAnc
          budgetDriver).2.states[budgetDriver.oldest_opened]? =
         some (s.load_all budgetDriver.opts unitClassify) ∧
       ((s.load_all budgetDriver.opts unitClassify).content.rd).measure =
         0) ∧
    ((IntoIterState.push unitClassify unitEmptyState unitAnc
        budgetDriver).2.oldest_opened = budgetDriver.oldest_opened + 1) := by
  refine ⟨⟨by decide, by decide, by decide, by decide⟩, ?_, ?_, ?_⟩
  · exact (c3_fd_budget unitClassify unitEmptyState unitAnc budgetDriver
      (by decide) (by decide) (by decide)).1
  · exact ((c3_fd_budget unitClassify unitEmptyState unitAnc budgetDriver
      (by decide) (by decide) (by decide)).2.2 (by decide)).1
  · exact ((c3_fd_budget unitClassify unitEmptyState unitAnc budgetDriver
      (by decide) (by decide) (by decide)).2.2 (by decide)).2 rfl

end Walkdir
